import Mathlib

/-!
Shallow embedding of the proof-of-prime blockchain node (src/main.rs and
src/middleware.rs) and verification of its specification claims.

Machine integers (`u64`, `u32`) are modelled as `Nat` with explicit
reduction `% 2^64` / `% 2^32` at every operation whose Rust counterpart
can overflow (release-profile wrapping semantics).  Loops are modelled
with an explicit fuel argument chosen large enough to cover every
terminating execution of the source loop; `f64` values that only feed
exact comparisons and exact scalings are modelled by `ℚ`, and the one
transcendental computation (`1/ln n` in `prime_heuristic`) is modelled
as a real-valued proposition, with the mining worker parameterised over
the boolean decision that the floating-point filter produces.
-/

namespace PrimeChain

def U64 : Nat := 2 ^ 64

def U32 : Nat := 2 ^ 32

/-- The `Block` struct of src/main.rs: all integer fields are `u64`. -/
structure Block where
  index : Nat
  prev_hash : String
  prime : Nat
  a : Nat
  b : Nat
  c : Nat
  d : Nat
  hash : String
deriving DecidableEq

/-- The `MiningStats` struct of src/main.rs, minus its `probability : f64`
field (a pure floating-point output, `1.0/ln(prime)`, claimed by no
frozen claim and not modelled). -/
structure MiningStats where
  candidates : Nat
  gcd_rejected : Nat
  heuristic_rejected : Nat
  miller_rabin_rejected : Nat
deriving DecidableEq

/-- The dynamic difficulty parameters: the statics `N_LIMIT : AtomicU64`,
`MIN_DIGITS : AtomicU32` and `MIN_PROB : AtomicU64` of src/main.rs.
`MIN_PROB` stores the probability scaled by 10000 (the code reads it as
`MIN_PROB as f64 / 10000.0`, so the initial value 100 means 0.01). -/
structure Difficulty where
  n_limit : Nat
  min_digits : Nat
  min_prob : Nat
deriving DecidableEq

/-- Initial difficulty: `AtomicU64::new(1000)`, `AtomicU32::new(7)`,
`AtomicU64::new(100)`. -/
def initialDifficulty : Difficulty := ⟨1000, 7, 100⟩

/-- The genesis block built at startup in the `axum` entry point. -/
def genesisBlock : Block :=
  { index := 0, prev_hash := "0", prime := 2, a := 1, b := 1, c := 1, d := 1,
    hash := "genesis" }

/-- Loop body of `mod_pow`.  One fuel unit per iteration of
`while exp > 0`; the exponent at least halves each iteration, so
`fuel = exp` is always enough.  The multiplications `result * base` and
`base * base` are `u64` multiplications: they wrap modulo `2^64`
*before* the reduction `% modu`, exactly as in the Rust source (which
has no widening cast). -/
def mod_pow_go : Nat → Nat → Nat → Nat → Nat → Nat
  | 0, _, _, _, result => result
  | fuel + 1, base, exp, modu, result =>
    if exp = 0 then result
    else
      let result' := if exp % 2 = 1 then result * base % U64 % modu else result
      let base' := base * base % U64 % modu
      mod_pow_go fuel base' (exp / 2) modu result'

/-- `fn mod_pow(mut base: u64, mut exp: u64, modu: u64) -> u64`. -/
def mod_pow (base exp modu : Nat) : Nat :=
  mod_pow_go exp (base % modu) exp modu 1

/-- Loop body of the source's Euclidean `fn gcd`.  One fuel unit per
iteration of `while b != 0`; `b` strictly decreases, so `fuel = b + 1`
covers every execution. -/
def gcd_go : Nat → Nat → Nat → Nat
  | 0, a, _ => a
  | fuel + 1, a, b => if b = 0 then a else gcd_go fuel b (a % b)

/-- `fn gcd(a: u64, b: u64) -> u64` of src/main.rs. -/
def gcd (a b : Nat) : Nat := gcd_go (b + 1) a b

/-- The `while d % 2 == 0 { d /= 2; r += 1 }` loop of `miller_rabin`,
started with `d = n - 1`, `r = 0`.  One fuel unit per halving. -/
def oddify : Nat → Nat → Nat → Nat × Nat
  | 0, d, r => (d, r)
  | fuel + 1, d, r => if d % 2 = 0 then oddify fuel (d / 2) (r + 1) else (d, r)

/-- The inner `for _ in 0..r-1` loop of `miller_rabin`: squares `x`
modulo `n` up to the given number of times; returns `true` the moment
`x` becomes `n - 1` (the source's `continue 'outer`), `false` when the
iteration budget is exhausted (the source's `return false`). -/
def mr_inner (n : Nat) : Nat → Nat → Bool
  | _, 0 => false
  | x, t + 1 =>
    let x' := mod_pow x 2 n
    if x' = n - 1 then true else mr_inner n x' t

/-- One round of the outer `for _ in 0..k` loop of `miller_rabin`, for a
base `a` already drawn: compute `x = mod_pow(a, d, n)`; the round passes
if `x ∈ {1, n-1}` or the inner squaring loop reaches `n - 1`. -/
def mr_round_ok (n d r a : Nat) : Bool :=
  let x := mod_pow a d n
  if x = 1 ∨ x = n - 1 then true else mr_inner n x (r - 1)

/-- The outer `for` loop of `miller_rabin`: round number `i` draws its
base with `rng.gen_range(2..n-1)`, modelled as `2 + draws i % (n - 3)`
from the raw random stream `draws`; `k` rounds remain. -/
def mr_rounds (n d r : Nat) (draws : Nat → Nat) : Nat → Nat → Bool
  | _, 0 => true
  | i, k + 1 =>
    if mr_round_ok n d r (2 + draws i % (n - 3)) then mr_rounds n d r draws (i + 1) k
    else false

/-- `fn miller_rabin(n: u64, k: u32) -> bool`, with the thread RNG made
explicit as the stream `draws` of raw draws. -/
def miller_rabin (n k : Nat) (draws : Nat → Nat) : Bool :=
  if n ≤ 1 then false
  else if n ≤ 3 then true
  else if n % 2 = 0 then false
  else
    let p := oddify (n - 1) (n - 1) 0
    mr_rounds n p.1 p.2 draws 0 k

/-- `fn prime_heuristic(n: u64, min_prob: f64) -> bool` computes
`1.0 / (n as f64).ln() >= min_prob` (after rejecting `n < 2`).  The
floating-point logarithm is modelled by the exact real logarithm; the
mining worker below is parameterised over the boolean decision actually
produced, and this proposition is used to certify concrete decisions. -/
def prime_heuristic (n : Nat) (min_prob : ℚ) : Prop :=
  2 ≤ n ∧ (min_prob : ℝ) ≤ 1 / Real.log n

/-- Hex digit of `format!("{:x}", _)`: `0-9` then lowercase `a-f`. -/
def hexChar (d : Nat) : Char :=
  if d < 10 then Char.ofNat (48 + d) else Char.ofNat (87 + d)

/-- Digit-accumulating loop of the hexadecimal formatter; one fuel unit
per digit, and `fuel = n` is plenty. -/
def toHexGo : Nat → Nat → List Char → List Char
  | 0, _, acc => acc
  | fuel + 1, n, acc =>
    if n = 0 then acc else toHexGo fuel (n / 16) (hexChar (n % 16) :: acc)

/-- `format!("{:x}", n)`: minimal lowercase hex digits, `"0"` for 0. -/
def toHex (n : Nat) : String :=
  if n = 0 then "0" else String.mk (toHexGo n n [])

/-- One candidate draw of `mine_worker`: the four raw draws feeding the
`gen_range` calls for `a`, `b`, `c`, `d`, plus the raw stream used by
the `miller_rabin` call of the same iteration. -/
def WorkerDraws : Type := Nat → Nat × Nat × Nat × Nat × (Nat → Nat)

/-- The `loop` of `fn mine_worker(prev: &Block)`, with the difficulty
snapshot (`N_LIMIT`, `MIN_DIGITS`) and the heuristic filter's boolean
decision function passed in explicitly.  One fuel unit per candidate.
`rng.gen_range(lo..hi)` is modelled as `lo + raw % (hi - lo)` and
`rng.gen_range(1..=n_limit)` as `1 + raw % n_limit`; an empty range
makes the Rust call panic, modelled as `none`.  The powers
`10_u64.pow(_)` and all counter increments wrap modulo `2^64`. -/
def mine_worker_go (prev : Block) (n_limit min_digits : Nat) (heur : Nat → Bool)
    (draws : WorkerDraws) : Nat → Nat → MiningStats → Option (Block × MiningStats)
  | 0, _, _ => none
  | fuel + 1, i, stats =>
    let stats1 := { stats with candidates := (stats.candidates + 1) % U64 }
    let lo := 10 ^ (min_digits - 1) % U64
    let hi := 10 ^ min_digits % U64
    if hi ≤ lo ∨ n_limit = 0 then none
    else
      let q := draws i
      let a := lo + q.1 % (hi - lo)
      let b := 1 + q.2.1 % n_limit
      let c := lo + q.2.2.1 % (hi - lo)
      let d := 1 + q.2.2.2.1 % n_limit
      if gcd a b ≠ 1 ∨ gcd c d ≠ 1 then
        mine_worker_go prev n_limit min_digits heur draws fuel (i + 1)
          { stats1 with gcd_rejected := (stats1.gcd_rejected + 1) % U64 }
      else
        let n := (a * d % U64 + b * c % U64) % U64
        if heur n = false then
          mine_worker_go prev n_limit min_digits heur draws fuel (i + 1)
            { stats1 with heuristic_rejected := (stats1.heuristic_rejected + 1) % U64 }
        else if miller_rabin n 12 q.2.2.2.2 then
          some ({ index := (prev.index + 1) % U64, prev_hash := prev.hash,
                  prime := n, a := a, b := b, c := c, d := d,
                  hash := toHex (n ^^^ prev.prime) }, stats1)
        else
          mine_worker_go prev n_limit min_digits heur draws fuel (i + 1)
            { stats1 with miller_rabin_rejected := (stats1.miller_rabin_rejected + 1) % U64 }

/-- `fn mine_worker` entry: statistics all start at zero. -/
def mine_worker (prev : Block) (n_limit min_digits : Nat) (heur : Nat → Bool)
    (draws : WorkerDraws) (fuel : Nat) : Option (Block × MiningStats) :=
  mine_worker_go prev n_limit min_digits heur draws fuel 0 ⟨0, 0, 0, 0⟩

/-- `fn adjust_difficulty(duration: f64)`.  The thresholds
`target * 0.6` and `target * 1.4` evaluate in `f64` to exactly `6.0`
and `14.0`, so the comparisons are modelled exactly over `ℚ`.  The
parameter updates `(x as f64 * c) as u64` (with min/max caps applied
before the truncating cast) are modelled by exact rational scaling
followed by truncation, i.e. `x * p / q` in `Nat`; the `as u64` cast
saturates at `u64::MAX` and `MIN_DIGITS.fetch_add(1)` wraps at `2^32`. -/
def adjust_difficulty (duration : ℚ) (s : Difficulty) : Difficulty :=
  let target : ℚ := 10
  if duration < target * (6 / 10) then
    { n_limit := min (s.n_limit * 3 / 2) (U64 - 1),
      min_digits := (s.min_digits + 1) % U32,
      min_prob := min (s.min_prob * 6 / 5) 1000 }
  else if duration > target * (14 / 10) then
    { s with
      n_limit := max (s.n_limit * 7 / 10) 100,
      min_prob := max (s.min_prob * 4 / 5) 50 }
  else s

/-- The chain commit performed by the `/mine` route handler:
`s.chain.push(new_block.clone())` — an unconditional append. -/
def chain_push (chain : List Block) (b : Block) : List Block := chain ++ [b]

/-- Chain states reachable by the program: the startup state
`vec![genesis]`, extended only by the `/mine` handler's push.  No other
operation writes the chain (`/chain` only clones it). -/
inductive Reachable : List Block → Prop where
  | init : Reachable [genesisBlock]
  | mine : ∀ c b, Reachable c → Reachable (chain_push c b)

/-- Outcome of the `ApiKey` extractor in src/middleware.rs. -/
inductive ApiKeyOutcome where
  | accepted (key : String)
  | rejected (status : Nat) (message : String)
deriving DecidableEq

/-- `ApiKey::from_request_parts`: `header` is the decoded
`X-API-Key` header (`None` when absent), `expected` the configured
secret (`API_KEY` env var, defaulting to `"dev-secret-key-123"`). -/
def api_key_from_request (header : Option String) (expected : String) : ApiKeyOutcome :=
  match header with
  | none => .rejected 400 "Missing X-API-Key header"
  | some k => if k = expected then .accepted k else .rejected 401 "Invalid API key"

/-! Verification helpers and concrete fixtures (not part of the source
embedding). -/

/-- Balanced finite conjunction checker: `allRange f fuel lo len` is
`true` only if `f` holds on `[lo, lo + len)`.  The divide-and-conquer
shape keeps kernel evaluation depth logarithmic so large ranges can be
checked by `decide`. -/
def allRange (f : Nat → Bool) : Nat → Nat → Nat → Bool
  | 0, _, len => len = 0
  | fuel + 1, lo, len =>
    if len = 0 then true
    else if len = 1 then f lo
    else allRange f fuel lo (len / 2) && allRange f fuel (lo + len / 2) (len - len / 2)

/-- Raw draw stream steering `mine_worker` to the candidate
`a = 8900000000000000000, b = 1, c = 1293488151714070523, d = 4` at
difficulty `n_limit = 100, min_digits = 19`; then `a*d + b*c =
2 * 2^64 + 4294967291` wraps to the prime `4294967291`. -/
def wrapDraws : WorkerDraws :=
  fun _ => (7900000000000000000, 0, 293488151714070523, 3, fun _ => 0)

/-- The block produced by `mine_worker` under `wrapDraws`. -/
def wrapBlock : Block :=
  { index := 1, prev_hash := "genesis", prime := 4294967291,
    a := 8900000000000000000, b := 1, c := 1293488151714070523, d := 4,
    hash := "fffffff9" }

/-- Raw draw stream producing the candidate `a = 2, b = 1, c = 3, d = 1`
(so `n = 5`) at difficulty `n_limit = 5, min_digits = 1`. -/
def okDraws : WorkerDraws := fun _ => (1, 0, 2, 0, fun _ => 0)

/-- The block produced by `mine_worker` under `okDraws` from genesis. -/
def okBlock : Block := ⟨1, "genesis", 5, 2, 1, 3, 1, "7"⟩

/-- Raw draw stream whose first candidate is rejected by the gcd filter
(`a = 2, b = 2`) and whose second candidate (`n = 5`) is accepted. -/
def statsDraws : WorkerDraws :=
  fun i => if i = 0 then (1, 1, 1, 1, fun _ => 0) else (1, 0, 2, 0, fun _ => 0)

/-- A proposed block violating both ledger invariants relative to the
chain `[genesisBlock]`: its index is not the chain length and its
`prev_hash` is not the tip's hash. -/
def invalidBlock : Block := ⟨7, "not-the-tip", 4, 2, 2, 2, 2, "junk"⟩

/-! Supporting lemmas. -/

/-- Soundness of the balanced range checker. -/
lemma allRange_sound (f : Nat → Bool) :
    ∀ fuel lo len, allRange f fuel lo len = true →
      ∀ b, lo ≤ b → b < lo + len → f b = true := by
  intro fuel
  induction fuel with
  | zero =>
      intro lo len h b hb hb'
      simp only [allRange, decide_eq_true_eq] at h
      omega
  | succ fuel ih =>
      intro lo len h b hb hb'
      simp only [allRange] at h
      by_cases h0 : len = 0
      · omega
      · rw [if_neg h0] at h
        by_cases h1 : len = 1
        · rw [if_pos h1] at h
          have : b = lo := by omega
          rwa [this]
        · rw [if_neg h1, Bool.and_eq_true] at h
          rcases Nat.lt_or_ge b (lo + len / 2) with hlt | hge
          · exact ih lo (len / 2) h.1 b hb hlt
          · exact ih (lo + len / 2) (len - len / 2) h.2 b hge (by omega)

/-- The source's Euclidean `gcd` agrees with `Nat.gcd` (the fuel
`b + 1` always suffices). -/
lemma gcd_go_eq (fuel : Nat) :
    ∀ a b, b < fuel → gcd_go fuel a b = Nat.gcd a b := by
  induction fuel with
  | zero => intro a b h; omega
  | succ fuel ih =>
      intro a b h
      by_cases hb : b = 0
      · subst hb; simp [gcd_go]
      · rw [gcd_go, if_neg hb, ih b (a % b) (by have := Nat.mod_lt a (Nat.pos_of_ne_zero hb); omega)]
        rw [Nat.gcd_comm b (a % b), ← Nat.gcd_rec b a, Nat.gcd_comm b a]

lemma gcd_eq (a b : Nat) : gcd a b = Nat.gcd a b :=
  gcd_go_eq (b + 1) a b (Nat.lt_succ_self b)

/-- If every possible base passes one Miller-Rabin round, all `k` outer
rounds pass, whatever the raw draw stream. -/
lemma mr_rounds_of_round_ok (n d r : Nat) (draws : Nat → Nat)
    (h : ∀ u : Nat, mr_round_ok n d r (2 + u % (n - 3)) = true) :
    ∀ k i, mr_rounds n d r draws i k = true := by
  intro k
  induction k with
  | zero => intro i; rfl
  | succ k ih =>
      intro i
      show (if mr_round_ok n d r (2 + draws i % (n - 3)) then
              mr_rounds n d r draws (i + 1) k else false) = true
      rw [h (draws i), if_pos rfl]
      exact ih (i + 1)

/-- Transfer an `allRange` check over the base span to the modular form
in which `gen_range(2..n-1)` produces bases. -/
lemma mr_round_ok_of_allRange (n d r span : Nat) (hspan : 0 < span)
    (h : allRange (fun b => mr_round_ok n d r (2 + b)) 16 0 span = true) :
    ∀ u : Nat, mr_round_ok n d r (2 + u % span) = true := by
  intro u
  exact allRange_sound _ 16 0 span h (u % span) (Nat.zero_le _)
    (by simpa using Nat.mod_lt u hspan)

lemma miller_rabin_5 (k : Nat) (draws : Nat → Nat) : miller_rabin 5 k draws = true :=
  mr_rounds_of_round_ok 5 1 2 draws
    (mr_round_ok_of_allRange 5 1 2 2 (by decide) (by decide)) k 0

lemma miller_rabin_7 (k : Nat) (draws : Nat → Nat) : miller_rabin 7 k draws = true :=
  mr_rounds_of_round_ok 7 3 1 draws
    (mr_round_ok_of_allRange 7 3 1 4 (by decide) (by decide)) k 0

lemma miller_rabin_11 (k : Nat) (draws : Nat → Nat) : miller_rabin 11 k draws = true :=
  mr_rounds_of_round_ok 11 5 1 draws
    (mr_round_ok_of_allRange 11 5 1 8 (by decide) (by decide)) k 0

lemma miller_rabin_13 (k : Nat) (draws : Nat → Nat) : miller_rabin 13 k draws = true :=
  mr_rounds_of_round_ok 13 3 2 draws
    (mr_round_ok_of_allRange 13 3 2 10 (by decide) (by decide)) k 0

lemma miller_rabin_97 (k : Nat) (draws : Nat → Nat) : miller_rabin 97 k draws = true :=
  mr_rounds_of_round_ok 97 3 5 draws
    (mr_round_ok_of_allRange 97 3 5 94 (by decide) (by decide)) k 0

set_option maxRecDepth 40000 in
set_option maxHeartbeats 4000000 in
lemma miller_rabin_7919_rounds :
    allRange (fun b => mr_round_ok 7919 3959 1 (2 + b)) 16 0 7916 = true := by
  decide

lemma miller_rabin_7919 (k : Nat) (draws : Nat → Nat) : miller_rabin 7919 k draws = true :=
  mr_rounds_of_round_ok 7919 3959 1 draws
    (mr_round_ok_of_allRange 7919 3959 1 7916 (by decide) miller_rabin_7919_rounds) k 0

/-- The fast-path update of `adjust_difficulty` as a pure `Nat`
function (used to evaluate iterated applications by `decide`). -/
def upStep (y : Difficulty) : Difficulty :=
  ⟨min (y.n_limit * 3 / 2) (U64 - 1), (y.min_digits + 1) % U32,
   min (y.min_prob * 6 / 5) 1000⟩

/-- Branch characterization of `adjust_difficulty`: the thresholds
`target * 0.6` and `target * 1.4` evaluate to 6 and 14. -/
lemma adjust_difficulty_eq (t : ℚ) (s : Difficulty) :
    adjust_difficulty t s =
      if t < 6 then
        ⟨min (s.n_limit * 3 / 2) (U64 - 1), (s.min_digits + 1) % U32,
         min (s.min_prob * 6 / 5) 1000⟩
      else if 14 < t then
        ⟨max (s.n_limit * 7 / 10) 100, s.min_digits, max (s.min_prob * 4 / 5) 50⟩
      else s := by
  unfold adjust_difficulty
  norm_num

/-! Claim theorems. -/

/-- C1: refuted at a concrete input — `mod_pow(2^32, 2, 2^32 + 1)`
returns 0 because the u64 product `base * base` wraps modulo `2^64`
before the reduction, while `(2^32)^2 mod (2^32 + 1) = 1`.  The source
has no double-width intermediate, contradicting the spec's requirement. -/
theorem mod_pow_overflow_failure :
    mod_pow 4294967296 2 4294967297 = 0 ∧
    4294967296 ^ 2 % 4294967297 = 1 ∧
    mod_pow 4294967296 2 4294967297 ≠ 4294967296 ^ 2 % 4294967297 ∧
    1 < 4294967297 ∧ 4294967297 < U64 := by
  refine ⟨by decide, by decide, by decide, by decide, by decide⟩

/-- C10: with `k = 0` testing rounds the outer loop of `miller_rabin`
never executes, so every odd `n > 3` is declared a probable prime,
whatever the draw stream. -/
theorem miller_rabin_zero_rounds (n : Nat) (draws : Nat → Nat)
    (h3 : 3 < n) (hodd : n % 2 = 1) : miller_rabin n 0 draws = true := by
  unfold miller_rabin
  rw [if_neg (by omega), if_neg (by omega), if_neg (by omega)]
  rfl

theorem miller_rabin_zero_rounds_witness :
    3 < 9 ∧ 9 % 2 = 1 ∧ miller_rabin 9 0 (fun _ => 0) = true :=
  ⟨by decide, by decide, miller_rabin_zero_rounds 9 (fun _ => 0) (by decide) (by decide)⟩

/-- C2: `miller_rabin` handles its edge cases by the direct rules of the
source (`n ≤ 1` false, `n ∈ {2,3}` true, even `n > 2` false), and for
each prime in `{2,3,5,7,11,13,97,7919}` it returns `true` for every
round count `k ≥ 1` and every possible random base sequence (every raw
draw stream, hence every base sequence `gen_range(2..n-1)` can emit). -/
theorem miller_rabin_edges_and_primes :
    (∀ n k : Nat, ∀ draws : Nat → Nat, n ≤ 1 → miller_rabin n k draws = false) ∧
    (∀ k : Nat, ∀ draws : Nat → Nat,
      miller_rabin 2 k draws = true ∧ miller_rabin 3 k draws = true) ∧
    (∀ n k : Nat, ∀ draws : Nat → Nat, 2 < n → n % 2 = 0 → miller_rabin n k draws = false) ∧
    (∀ n : Nat, n ∈ ([2, 3, 5, 7, 11, 13, 97, 7919] : List Nat) →
      ∀ k : Nat, 1 ≤ k → ∀ draws : Nat → Nat, miller_rabin n k draws = true) := by
  refine ⟨?_, ?_, ?_, ?_⟩
  · intro n k draws h
    unfold miller_rabin
    rw [if_pos h]
  · intro k draws
    exact ⟨rfl, rfl⟩
  · intro n k draws h2 he
    unfold miller_rabin
    rw [if_neg (by omega), if_neg (by omega), if_pos he]
  · intro n hn k _ draws
    simp only [List.mem_cons, List.not_mem_nil, or_false] at hn
    rcases hn with rfl | rfl | rfl | rfl | rfl | rfl | rfl | rfl
    · rfl
    · rfl
    · exact miller_rabin_5 k draws
    · exact miller_rabin_7 k draws
    · exact miller_rabin_11 k draws
    · exact miller_rabin_13 k draws
    · exact miller_rabin_97 k draws
    · exact miller_rabin_7919 k draws

theorem miller_rabin_edges_and_primes_witness :
    miller_rabin 1 5 (fun _ => 0) = false ∧
    miller_rabin 2 4 (fun _ => 2) = true ∧
    miller_rabin 10 3 (fun _ => 3) = false ∧
    (7919 ∈ ([2, 3, 5, 7, 11, 13, 97, 7919] : List Nat) ∧ 1 ≤ 2 ∧
      miller_rabin 7919 2 (fun _ => 5) = true) :=
  ⟨miller_rabin_edges_and_primes.1 1 5 (fun _ => 0) (by decide),
   (miller_rabin_edges_and_primes.2.1 4 (fun _ => 2)).1,
   miller_rabin_edges_and_primes.2.2.1 10 3 (fun _ => 3) (by decide) (by decide),
   by decide, by decide,
   miller_rabin_edges_and_primes.2.2.2 7919 (by decide) 2 (by decide) (fun _ => 5)⟩

/-- C3: `adjust_difficulty` implements the three-case feedback rule with
target 10.0 — thresholds `10.0 * 0.6` and `10.0 * 1.4` are exactly `6.0`
and `14.0` in `f64` — scaling `n_limit` by 1.5 (truncated, saturating at
`u64::MAX`), incrementing `min_digits` (wrapping `u32`) and scaling the
scaled `min_prob` by 1.2 capped at 1000 (= 0.1) on the fast path;
scaling `n_limit` by 0.7 floored at 100 and `min_prob` by 0.8 floored at
50 (= 0.005) on the slow path; identity otherwise.  The claim's two
concrete vectors (duration 3.0 and 16.0 from `(1000, 7, 0.01)`) are
checked literally (scaled: 100 ↔ 0.01, 120 ↔ 0.012, 80 ↔ 0.008). -/
theorem adjust_difficulty_feedback_rule :
    (∀ s : Difficulty, ∀ t : ℚ, t < 6 →
        adjust_difficulty t s =
          ⟨min (s.n_limit * 3 / 2) (U64 - 1), (s.min_digits + 1) % U32,
           min (s.min_prob * 6 / 5) 1000⟩) ∧
    (∀ s : Difficulty, ∀ t : ℚ, 14 < t →
        adjust_difficulty t s =
          ⟨max (s.n_limit * 7 / 10) 100, s.min_digits, max (s.min_prob * 4 / 5) 50⟩) ∧
    (∀ s : Difficulty, ∀ t : ℚ, 6 ≤ t → t ≤ 14 → adjust_difficulty t s = s) ∧
    adjust_difficulty 3 initialDifficulty = ⟨1500, 8, 120⟩ ∧
    adjust_difficulty 16 initialDifficulty = ⟨700, 7, 80⟩ := by
  refine ⟨?_, ?_, ?_,
    by rw [adjust_difficulty_eq, if_pos (by norm_num : (3 : ℚ) < 6)]; decide,
    by rw [adjust_difficulty_eq, if_neg (by norm_num : ¬(16 : ℚ) < 6),
           if_pos (by norm_num : (14 : ℚ) < 16)]; decide⟩
  · intro s t h
    rw [adjust_difficulty_eq, if_pos h]
  · intro s t h
    rw [adjust_difficulty_eq, if_neg (by linarith), if_pos h]
  · intro s t h1 h2
    rw [adjust_difficulty_eq, if_neg (by linarith), if_neg (by linarith)]

theorem adjust_difficulty_feedback_rule_witness :
    ((31 : ℚ) / 10 < 6 ∧
      adjust_difficulty (31 / 10) ⟨2000, 9, 500⟩ = ⟨3000, 10, 600⟩) ∧
    ((14 : ℚ) < 20 ∧ adjust_difficulty 20 ⟨2000, 9, 500⟩ = ⟨1400, 9, 400⟩) ∧
    ((6 : ℚ) ≤ 10 ∧ (10 : ℚ) ≤ 14 ∧ adjust_difficulty 10 ⟨2000, 9, 500⟩ = ⟨2000, 9, 500⟩) :=
  ⟨⟨by norm_num,
    (adjust_difficulty_feedback_rule.1 ⟨2000, 9, 500⟩ (31 / 10) (by norm_num)).trans (by decide)⟩,
   ⟨by norm_num,
    (adjust_difficulty_feedback_rule.2.1 ⟨2000, 9, 500⟩ 20 (by norm_num)).trans (by decide)⟩,
   ⟨by norm_num, by norm_num,
    adjust_difficulty_feedback_rule.2.2.1 ⟨2000, 9, 500⟩ 10 (by norm_num) (by norm_num)⟩⟩

/-- C5: refuted — the `/mine` handler commits with
`s.chain.push(new_block.clone())` and performs no index/prev_hash
validation: a block violating both claimed checks is appended anyway,
the chain is changed, and no error is produced (no `InvalidBlock` type
exists in the source). -/
theorem chain_push_no_validation_counterexample :
    invalidBlock.index ≠ ([genesisBlock] : List Block).length ∧
    invalidBlock.prev_hash ≠ genesisBlock.hash ∧
    chain_push [genesisBlock] invalidBlock = [genesisBlock, invalidBlock] := by
  refine ⟨by decide, by decide, rfl⟩

/-- C5 (amended): the ledger append is unconditional — for every chain
state and every proposed block `b`, the commit extends the chain by
exactly `b` (tip becomes `b`, previous entries untouched), whether or
not `b.index = len(chain)` or `b.prev_hash` matches the tip; no
validation is performed and no error can be surfaced. -/
theorem chain_push_unconditional (chain : List Block) (b : Block) :
    chain_push chain b = chain ++ [b] ∧
    (chain_push chain b).length = chain.length + 1 ∧
    (chain_push chain b).getLast? = some b ∧
    List.take chain.length (chain_push chain b) = chain := by
  refine ⟨rfl, by simp [chain_push], ?_, by simp [chain_push]⟩
  simp [chain_push]

/-- C6: refuted — `adjust_difficulty` caps neither `min_digits` nor
`n_limit`: twelve consecutive fast rounds (duration 3.0) from the
initial parameters raise `min_digits` to 19 (and every further fast
round increments it again), at which point in-range draws such as
`a = c = 10^18 + 1, b = 3, d = 16` make the u64 candidate sum
`a*d + b*c = 19000000000000000019 ≥ 2^64` wrap silently to
`553255926290448403`; the round does not fail. -/
theorem difficulty_growth_unbounded_overflow :
    ((adjust_difficulty 3)^[12] initialDifficulty).min_digits = 19 ∧
    ((adjust_difficulty 3)^[12] initialDifficulty).n_limit = 129721 ∧
    (∀ j : Nat, ((adjust_difficulty 3)^[j + 1] initialDifficulty).min_digits =
        (((adjust_difficulty 3)^[j] initialDifficulty).min_digits + 1) % U32) ∧
    10 ^ (19 - 1) ≤ 10 ^ 18 + 1 ∧ 10 ^ 18 + 1 < 10 ^ 19 ∧
    ((10 ^ 18 + 1) * 16 % U64 + 3 * (10 ^ 18 + 1) % U64) % U64 = 553255926290448403 ∧
    (10 ^ 18 + 1) * 16 + 3 * (10 ^ 18 + 1) = 19000000000000000019 ∧
    U64 ≤ 19000000000000000019 ∧
    (553255926290448403 : Nat) ≠ 19000000000000000019 := by
  have hstep : ∀ y : Difficulty, adjust_difficulty 3 y = upStep y := fun y => by
    rw [adjust_difficulty_eq, if_pos (by norm_num : (3 : ℚ) < 6)]; rfl
  have hfun : adjust_difficulty 3 = upStep := funext hstep
  refine ⟨by rw [hfun]; decide, by rw [hfun]; decide, ?_, by decide, by decide, by decide,
    by decide, by decide, by decide⟩
  intro j
  rw [Function.iterate_succ_apply', hstep]
  rfl

/-- C7: the chain's first element is always the fixed genesis sentinel
`{index 0, prev_hash "0", prime 2, a=b=c=d=1, hash "genesis"}`: it is
inserted once at construction and every reachable chain state (the only
mutation being the `/mine` push) keeps it at position 0 unchanged. -/
theorem genesis_fixed_point :
    genesisBlock = ⟨0, "0", 2, 1, 1, 1, 1, "genesis"⟩ ∧
    ∀ c : List Block, Reachable c → c.head? = some genesisBlock := by
  refine ⟨rfl, ?_⟩
  intro c h
  induction h with
  | init => rfl
  | mine c b hc ih =>
      cases c with
      | nil => simp at ih
      | cons x xs => simpa [chain_push] using ih

theorem genesis_fixed_point_witness :
    Reachable (chain_push [genesisBlock] genesisBlock) ∧
    (chain_push [genesisBlock] genesisBlock).head? = some genesisBlock :=
  ⟨Reachable.mine _ _ Reachable.init,
   genesis_fixed_point.2 _ (Reachable.mine _ _ Reachable.init)⟩

/-- C8: the `ApiKey` extractor distinguishes the two failure classes of
the claim — absent header: 400 Bad Request "Missing X-API-Key header";
present but different from the configured secret: 401 Unauthorized
"Invalid API key"; equal to the secret: accepted. -/
theorem api_key_gate (expected : String) :
    api_key_from_request none expected = .rejected 400 "Missing X-API-Key header" ∧
    (∀ k : String, k ≠ expected →
      api_key_from_request (some k) expected = .rejected 401 "Invalid API key") ∧
    (∀ k : String, k = expected → api_key_from_request (some k) expected = .accepted k) := by
  refine ⟨rfl, ?_, ?_⟩
  · intro k hk
    simp [api_key_from_request, hk]
  · intro k hk
    simp [api_key_from_request, hk]

/-- C4: refuted on the `prime = a*d + b*c` clause — at the reachable
difficulty `n_limit = 100, min_digits = 19`, the in-range draws
`a = 8900000000000000000, b = 1, c = 1293488151714070523, d = 4` give
`a*d + b*c = 2 * 2^64 + 4294967291`, which the u64 arithmetic wraps to
the prime `4294967291`; the worker accepts it and returns a block whose
`prime` differs from the exact `a*d + b*c`.  The final conjunct
certifies that the real heuristic filter (`1/ln n ≥ 0.01`) passes this
candidate, so the oracle `fun _ => true` matches the source. -/
theorem mine_worker_prime_wrap_counterexample :
    mine_worker genesisBlock 100 19 (fun _ => true) wrapDraws 1 =
      some (wrapBlock, ⟨1, 0, 0, 0⟩) ∧
    wrapBlock.prime ≠ wrapBlock.a * wrapBlock.d + wrapBlock.b * wrapBlock.c ∧
    wrapBlock.a * wrapBlock.d + wrapBlock.b * wrapBlock.c = 2 * U64 + wrapBlock.prime ∧
    10 ^ (19 - 1) ≤ wrapBlock.a ∧ wrapBlock.a < 10 ^ 19 ∧
    10 ^ (19 - 1) ≤ wrapBlock.c ∧ wrapBlock.c < 10 ^ 19 ∧
    1 ≤ wrapBlock.b ∧ wrapBlock.b ≤ 100 ∧ 1 ≤ wrapBlock.d ∧ wrapBlock.d ≤ 100 ∧
    prime_heuristic wrapBlock.prime (1 / 100) := by
  refine ⟨by decide, by decide, by decide, by decide, by decide, by decide, by decide,
    by decide, by decide, by decide, by decide, ?_, ?_⟩
  · decide
  · have hq : (((1 : ℚ) / 100 : ℚ) : ℝ) = (1 / 100 : ℝ) := by norm_num
    have hp : (wrapBlock.prime : ℝ) = ((4294967291 : Nat) : ℝ) := by norm_num [wrapBlock]
    rw [hq, hp]
    have hgt : (1 : ℝ) < ((4294967291 : Nat) : ℝ) := by norm_num
    have hpos : 0 < Real.log ((4294967291 : Nat) : ℝ) := Real.log_pos hgt
    have hle : Real.log ((4294967291 : Nat) : ℝ) ≤ 100 := by
      have h1 : ((4294967291 : Nat) : ℝ) ≤ 2 ^ 100 := by norm_num
      have h2 : Real.log ((4294967291 : Nat) : ℝ) ≤ Real.log (2 ^ 100) :=
        Real.log_le_log (by norm_num) h1
      have h3 : Real.log ((2 : ℝ) ^ 100) = 100 * Real.log 2 := by
        rw [Real.log_pow]
        norm_num
      have h4 : Real.log 2 < 1 := by
        have h9 := Real.log_two_lt_d9
        norm_num at h9
        linarith
      rw [h3] at h2
      linarith
    exact one_div_le_one_div_of_le hpos hle

/-- C4 (amended): every block a successful `mine_worker` run returns
satisfies `index = prev.index + 1` (exact whenever `prev.index + 1`
fits in u64), `prev_hash = prev.hash`, `hash = hex(prime XOR
prev.prime)`, `prime = (a*d + b*c) mod 2^64` — equal to the exact
`a*d + b*c` whenever that sum fits in u64 — and
`gcd(a,b) = gcd(c,d) = 1`. -/
theorem mine_worker_block_identities
    (prev : Block) (n_limit min_digits : Nat) (heur : Nat → Bool) (draws : WorkerDraws)
    (fuel i : Nat) (s0 : MiningStats) (blk : Block) (stats : MiningStats)
    (hidx : prev.index + 1 < U64)
    (h : mine_worker_go prev n_limit min_digits heur draws fuel i s0 = some (blk, stats)) :
    blk.index = prev.index + 1 ∧
    blk.prev_hash = prev.hash ∧
    blk.hash = toHex (blk.prime ^^^ prev.prime) ∧
    blk.prime = (blk.a * blk.d + blk.b * blk.c) % U64 ∧
    (blk.a * blk.d + blk.b * blk.c < U64 → blk.prime = blk.a * blk.d + blk.b * blk.c) ∧
    gcd blk.a blk.b = 1 ∧ gcd blk.c blk.d = 1 := by
  induction fuel generalizing i s0 with
  | zero => exact absurd h (by simp [mine_worker_go])
  | succ fuel ih =>
      simp only [mine_worker_go] at h
      split at h
      · exact absurd h (by simp)
      · split at h
        · exact ih (i + 1) _ h
        · rename_i hrange hgcd
          split at h
          · exact ih (i + 1) _ h
          · split at h
            · rw [Option.some.injEq, Prod.mk.injEq] at h
              obtain ⟨hb, -⟩ := h
              subst hb
              push_neg at hgcd
              refine ⟨Nat.mod_eq_of_lt hidx, rfl, rfl, (Nat.add_mod _ _ _).symm, ?_,
                hgcd.1, hgcd.2⟩
              intro hlt
              rw [(Nat.add_mod _ _ _).symm]
              exact Nat.mod_eq_of_lt hlt
            · exact ih (i + 1) _ h

theorem mine_worker_block_identities_witness :
    genesisBlock.index + 1 < U64 ∧
    (okBlock.index = genesisBlock.index + 1 ∧
     okBlock.prev_hash = genesisBlock.hash ∧
     okBlock.hash = toHex (okBlock.prime ^^^ genesisBlock.prime) ∧
     okBlock.prime = (okBlock.a * okBlock.d + okBlock.b * okBlock.c) % U64 ∧
     (okBlock.a * okBlock.d + okBlock.b * okBlock.c < U64 →
       okBlock.prime = okBlock.a * okBlock.d + okBlock.b * okBlock.c) ∧
     gcd okBlock.a okBlock.b = 1 ∧ gcd okBlock.c okBlock.d = 1) :=
  ⟨by decide,
   mine_worker_block_identities genesisBlock 5 1 (fun _ => true) okDraws 1 0 ⟨0, 0, 0, 0⟩
     okBlock ⟨1, 0, 0, 0⟩ (by decide) (by decide)⟩

/-- Per-iteration bookkeeping invariant of the worker loop: starting
from balanced statistics (`candidates` equal to the sum of the three
rejection counters) whose value leaves room for `fuel` more increments
below `2^64`, a successful run returns statistics in which exactly one
candidate — the accepted one — is not attributed to a rejection
counter. -/
lemma mine_worker_go_stats (prev : Block) (n_limit min_digits : Nat)
    (heur : Nat → Bool) (draws : WorkerDraws) :
    ∀ fuel i s0 blk stats,
      s0.candidates = s0.gcd_rejected + s0.heuristic_rejected + s0.miller_rabin_rejected →
      s0.candidates + fuel < U64 →
      mine_worker_go prev n_limit min_digits heur draws fuel i s0 = some (blk, stats) →
      stats.candidates =
        stats.gcd_rejected + stats.heuristic_rejected + stats.miller_rabin_rejected + 1 := by
  intro fuel
  induction fuel with
  | zero => intro i s0 blk stats _ _ h; exact absurd h (by simp [mine_worker_go])
  | succ fuel ih =>
      intro i s0 blk stats hbal hfu h
      have hc1 : (s0.candidates + 1) % U64 = s0.candidates + 1 :=
        Nat.mod_eq_of_lt (by omega)
      have hg1 : (s0.gcd_rejected + 1) % U64 = s0.gcd_rejected + 1 :=
        Nat.mod_eq_of_lt (by omega)
      have hh1 : (s0.heuristic_rejected + 1) % U64 = s0.heuristic_rejected + 1 :=
        Nat.mod_eq_of_lt (by omega)
      have hm1 : (s0.miller_rabin_rejected + 1) % U64 = s0.miller_rabin_rejected + 1 :=
        Nat.mod_eq_of_lt (by omega)
      simp only [mine_worker_go] at h
      split at h
      · exact absurd h (by simp)
      · split at h
        · refine ih (i + 1) _ blk stats ?_ ?_ h <;> simp only [hc1, hg1] <;> omega
        · split at h
          · refine ih (i + 1) _ blk stats ?_ ?_ h <;> simp only [hc1, hh1] <;> omega
          · split at h
            · rw [Option.some.injEq, Prod.mk.injEq] at h
              obtain ⟨-, hs⟩ := h
              subst hs
              simp only [hc1]
              omega
            · refine ih (i + 1) _ blk stats ?_ ?_ h <;> simp only [hc1, hm1] <;> omega

/-- C9: the statistics returned by a successful `mine_worker` run (of
fewer than `2^64` iterations) satisfy `candidates = gcd_rejected +
heuristic_rejected + miller_rabin_rejected + 1`; in particular at least
one candidate was counted. -/
theorem mining_stats_accounting
    (prev : Block) (n_limit min_digits : Nat) (heur : Nat → Bool) (draws : WorkerDraws)
    (fuel : Nat) (blk : Block) (stats : MiningStats)
    (hfuel : fuel < U64)
    (h : mine_worker prev n_limit min_digits heur draws fuel = some (blk, stats)) :
    stats.candidates =
      stats.gcd_rejected + stats.heuristic_rejected + stats.miller_rabin_rejected + 1 ∧
    1 ≤ stats.candidates := by
  have hmain := mine_worker_go_stats prev n_limit min_digits heur draws fuel 0 ⟨0, 0, 0, 0⟩
    blk stats rfl (by simpa using hfuel) h
  exact ⟨hmain, by omega⟩

theorem mining_stats_accounting_witness :
    (2 : Nat) < U64 ∧
    ((⟨2, 1, 0, 0⟩ : MiningStats).candidates =
        (⟨2, 1, 0, 0⟩ : MiningStats).gcd_rejected +
          (⟨2, 1, 0, 0⟩ : MiningStats).heuristic_rejected +
          (⟨2, 1, 0, 0⟩ : MiningStats).miller_rabin_rejected + 1 ∧
      1 ≤ (⟨2, 1, 0, 0⟩ : MiningStats).candidates) :=
  ⟨by decide,
   mining_stats_accounting genesisBlock 5 1 (fun _ => true) statsDraws 2
     ⟨1, "genesis", 5, 2, 1, 3, 1, "7"⟩ ⟨2, 1, 0, 0⟩ (by decide) (by decide)⟩

theorem api_key_gate_witness :
    api_key_from_request none "dev-secret-key-123" =
      .rejected 400 "Missing X-API-Key header" ∧
    ("wrong-key" ≠ "dev-secret-key-123" ∧
      api_key_from_request (some "wrong-key") "dev-secret-key-123" =
        .rejected 401 "Invalid API key") ∧
    api_key_from_request (some "dev-secret-key-123") "dev-secret-key-123" =
      .accepted "dev-secret-key-123" :=
  ⟨(api_key_gate "dev-secret-key-123").1,
   ⟨by decide, (api_key_gate "dev-secret-key-123").2.1 "wrong-key" (by decide)⟩,
   (api_key_gate "dev-secret-key-123").2.2 "dev-secret-key-123" rfl⟩

end PrimeChain
